import Mathlib

/-!
Verification of the Q-learning grid world program (src/qgrid.c) against its
design specification.  The C program is embedded shallowly:

* C `int` coordinates are `Int`; machine floats used for rewards and
  Q-values are modelled as exact rationals `ℚ` (the claims checked here are
  structural claims about which expressions are computed, not about
  floating-point rounding); the persistence layer, whose contract is
  bit-identity, is modelled separately at the level of 4-byte words.
* Stateful C code is embedded by explicit state passing: the global libc
  random generator becomes an explicitly threaded `Nat` state together with
  an arbitrary deterministic transition function (the C library generator is
  deterministic once seeded but its transition function is not part of this
  repository).
* Fallible code (`load_qtable`, which returns 0 on failure) returns `Option`.
-/

namespace QGrid

/-- Number of actions; `#define ACTIONS 4  // 0=up,1=right,2=down,3=left`. -/
def ACTIONS : Nat := 4

/-- The `Env` struct of qgrid.c.  The `walls` array (1 if wall) is modelled
as a Boolean predicate on coordinates; it is only ever consulted after the
bounds check in `env_valid`, so the fixed `MAX_H × MAX_W` backing array is
immaterial.  Rewards are C floats, modelled as exact rationals. -/
structure Env where
  w : Int
  h : Int
  start_x : Int
  start_y : Int
  goal_x : Int
  goal_y : Int
  walls : Int → Int → Bool
  step_limit : Nat
  step_reward : ℚ
  goal_reward : ℚ

/-- The `Pos` struct: an agent coordinate. -/
structure Pos where
  x : Int
  y : Int
deriving DecidableEq

/-- Function `env_valid`: in bounds and not a wall. -/
def env_valid (env : Env) (x y : Int) : Bool :=
  if x < 0 || x ≥ env.w || y < 0 || y ≥ env.h then false
  else if env.walls y x then false
  else true

/-- The moved-to cell computed at the top of `env_step` (lines 65-69):
up is `y-1`, right is `x+1`, down is `y+1`, left is `x-1`; any other
action value leaves the position as is. -/
def moved_cell (s : Pos) (action : Nat) : Pos :=
  if action = 0 then ⟨s.x, s.y - 1⟩
  else if action = 1 then ⟨s.x + 1, s.y⟩
  else if action = 2 then ⟨s.x, s.y + 1⟩
  else if action = 3 then ⟨s.x - 1, s.y⟩
  else s

/-- Function `env_step`: apply one of the four deterministic moves; on an invalid
target cell stay put; `done` iff the resulting cell is the goal; reward is
`goal_reward` when done, else `step_reward`. -/
def env_step (env : Env) (s : Pos) (action : Nat) : Pos × ℚ × Bool :=
  let ns : Pos := moved_cell s action
  let ns : Pos := if !env_valid env ns.x ns.y then s else ns
  let done : Bool := ns.x == env.goal_x && ns.y == env.goal_y
  let reward : ℚ := if done then env.goal_reward else env.step_reward
  (ns, reward, done)

/-- Function `state_id`: dense state index `y*w + x`. -/
def state_id (env : Env) (x y : Int) : Int := y * env.w + x

/-- Function `idxQ`: flat Q-table slot index `s*ACTIONS + a`. -/
def idxQ (s : Int) (a : Nat) : Int := s * (ACTIONS : Int) + (a : Nat)

/-- The `QModel` struct viewed through its float values: dimensions plus a
dense array of `w*h*ACTIONS` Q-values (C floats, modelled as exact
rationals). -/
structure QModel where
  w : Int
  h : Int
  q : List ℚ

/-- Reading slot `m->q[idxQ(env,s,a)]` (out-of-range reads, which the C
contract excludes, default to 0 here). -/
def valueOf (m : QModel) (s : Int) (a : Nat) : ℚ :=
  m.q.getD (idxQ s a).toNat 0

/-- Function `argmax_a`: scan actions `1..ACTIONS-1` keeping the strictly larger
value, starting from action 0 — first-seen-wins tie-break. -/
def argmax_a (m : QModel) (s : Int) : Nat :=
  (List.foldl
    (fun (p : ℚ × Nat) a =>
      let v := valueOf m s a
      if v > p.1 then (v, a) else p)
    (valueOf m s 0, 0) [1, 2, 3]).2

/-- Function `maxQ`: the maximal Q-value over the four actions of state `s`. -/
def maxQ (m : QModel) (s : Int) : ℚ :=
  List.foldl
    (fun best a =>
      let v := valueOf m s a
      if v > best then v else best)
    (valueOf m s 0) [1, 2, 3]

/-- Constant `RAND_MAX` of the platform libc (glibc value, 2^31 - 1). -/
def RAND_MAX : Nat := 2147483647

/-- Modelled from the spec: the C library random generator (`srand`/`rand`)
is not part of this repository; the spec only requires a single seeded
deterministic generator.  It is modelled as an arbitrary deterministic
state-transition function `next` with an output map `out`; the output is
reduced modulo `RAND_MAX + 1` so every draw lies in `[0, RAND_MAX]`, as
`rand()` guarantees. -/
structure Rand where
  next : Nat → Nat
  out : Nat → Nat

/-- One call to `rand()`: advance the hidden state, return a value in
`[0, RAND_MAX]` together with the new state. -/
def rand (g : Rand) (st : Nat) : Nat × Nat :=
  let st1 := g.next st
  (g.out st1 % (RAND_MAX + 1), st1)

/-- Function `eps_greedy_action`: draw `u = rand()/RAND_MAX` (exact division here;
the C code divides the two values as floats); if `u < eps` return
`rand() % ACTIONS` from a second draw, else the greedy action.  The random
state is threaded explicitly. -/
def eps_greedy_action (m : QModel) (s : Int) (eps : ℚ) (g : Rand) (st : Nat) :
    Nat × Nat :=
  let r0 := rand g st
  if ((r0.1 : ℚ) / (RAND_MAX : ℚ)) < eps then
    let r1 := rand g r0.2
    (r1.1 % ACTIONS, r1.2)
  else
    (argmax_a m s, r0.2)

/-- Lines 176-178 of `train`: the one-step tabular Q-learning update.
`td_target = r + (done ? 0 : gamma * maxQ(ns_id))` and the slot
`(s_id, a)` moves toward the target by a factor `alpha`; the write is a
single `List.set` on that slot. -/
def q_update (m : QModel) (s_id : Int) (a : Nat) (r : ℚ) (done : Bool)
    (gamma alpha : ℚ) (ns_id : Int) : QModel :=
  let td_target : ℚ := r + (if done then 0 else gamma * maxQ m ns_id)
  let Qsa : ℚ := valueOf m s_id a
  { m with q := m.q.set (idxQ s_id a).toNat (Qsa + alpha * (td_target - Qsa)) }

/-- The inner episode loop of `train` (lines 164-184): pick an action
epsilon-greedily, step the environment, apply the Q-update, accumulate
return and step count; exit as soon as `done` or the step count reaches
`step_limit`.  Returns `(table, steps, return, rand state)`.

The `for(;;)` loop is embedded with an explicit iteration budget `fuel`:
since the step count grows by one per iteration and the loop breaks once
it reaches `step_limit`, the loop runs at most `step_limit - steps` more
iterations (and at least one), so any budget with
`1 ≤ fuel ∧ step_limit ≤ steps + fuel` reproduces the C loop exactly and
never reaches the budget-exhausted first branch
(`train_loop_fuel_irrelevant` below proves the budget does not matter);
callers pass `step_limit + 1`. -/
def train_loop (env : Env) (g : Rand) (alpha gamma eps : ℚ) :
    Nat → QModel → Nat → Pos → Nat → ℚ → QModel × Nat × ℚ × Nat
  | 0, m, st, _s, steps, ret => (m, steps, ret, st)
  | fuel + 1, m, st, s, steps, ret =>
    let s_id := state_id env s.x s.y
    let ar := eps_greedy_action m s_id eps g st
    let step := env_step env s ar.1
    let ns := step.1
    let r := step.2.1
    let done := step.2.2
    let ns_id := state_id env ns.x ns.y
    let m1 := q_update m s_id ar.1 r done gamma alpha ns_id
    let ret1 := ret + r
    let steps1 := steps + 1
    if done = true ∨ env.step_limit ≤ steps1 then (m1, steps1, ret1, ar.2)
    else train_loop env g alpha gamma eps fuel m1 ar.2 ns steps1 ret1

/-- The per-episode loop of `train` (lines 159-192), recursing over the
number of remaining episodes with the 1-based episode index `ep` carried
along; `expf` stands for the libc float exponential routine, an arbitrary
fixed function of its argument.  Statistics printing is side-effect only
and omitted.  Returns the final table and random state. -/
def train_run (env : Env) (g : Rand) (expf : ℚ → ℚ)
    (alpha gamma eps_start eps_min eps_decay : ℚ) :
    Nat → Nat → QModel → Nat → QModel × Nat
  | 0, _, m, st => (m, st)
  | n + 1, ep, m, st =>
    let eps : ℚ := max eps_min (eps_start * expf (-(eps_decay * (ep : ℚ))))
    let res := train_loop env g alpha gamma eps (env.step_limit + 1) m st
      ⟨env.start_x, env.start_y⟩ 0 0
    train_run env g expf alpha gamma eps_start eps_min eps_decay n (ep + 1)
      res.1 res.2.2.2

/-- Function `train`: run `episodes` episodes, the episode index starting at 1. -/
def train (env : Env) (g : Rand) (expf : ℚ → ℚ) (m : QModel) (episodes : Nat)
    (alpha gamma eps_start eps_min eps_decay : ℚ) (seed : Nat) :
    QModel × Nat :=
  train_run env g expf alpha gamma eps_start eps_min eps_decay episodes 1 m seed

/-- The inner episode loop of `play_greedy` (lines 200-212): always take
the greedy action, never update the table.  Returns `(return, steps)`.
Embedded with the same iteration budget scheme as `train_loop`. -/
def play_loop (env : Env) (m : QModel) :
    Nat → Pos → Nat → ℚ → ℚ × Nat
  | 0, _s, steps, ret => (ret, steps)
  | fuel + 1, s, steps, ret =>
    let sid := state_id env s.x s.y
    let a := argmax_a m sid
    let step := env_step env s a
    let ns := step.1
    let r := step.2.1
    let done := step.2.2
    let ret1 := ret + r
    let steps1 := steps + 1
    if done = true ∨ env.step_limit ≤ steps1 then (ret1, steps1)
    else play_loop env m fuel ns steps1 ret1

/-- The exponential epsilon-decay schedule of line 161 of `train`, read at
the level of real numbers (with the exact exponential standing for the
float routine `expf`): `eps = max(eps_min, eps_start * exp(-eps_decay * ep))`
for the 1-based episode index `ep`. -/
noncomputable def epsilon_at (eps_start eps_min eps_decay : ℝ) (ep : Nat) : ℝ :=
  max eps_min (eps_start * Real.exp (-(eps_decay * (ep : ℝ))))

/-!
Persistence (`save_qtable` / `load_qtable`).  The wire format is
`int32 w | int32 h | float32[w*h*ACTIONS]`: every item read or written is
exactly 4 bytes, so a file is modelled as the list of its complete 4-byte
words; `fread` of one item succeeds iff one complete word remains (a
trailing incomplete word can never complete an item and so never changes the
outcome).  Since `fwrite`/`fread` copy raw bytes, a float value is an
uninterpreted 32-bit pattern here, and the contract is bit-identity.
-/

/-- The `QModel` struct viewed through the bit patterns of its floats, as
the persistence code sees it: each Q-value is the 32-bit pattern of the
stored float. -/
structure QModelBits where
  w : Int
  h : Int
  q : List Nat

/-- The 4 bytes `fwrite(&i, sizeof(int), 1, f)` emits, as one 32-bit word:
the twos-complement pattern of the int. -/
def int32ToBits (i : Int) : Nat := (i % 4294967296).toNat

/-- Reading 4 bytes back into an `int`: twos-complement decoding of a
32-bit pattern. -/
def bitsToInt32 (n : Nat) : Int :=
  if n < 2147483648 then (n : Int) else (n : Int) - 4294967296

/-- Function `save_qtable`: the words written to the file — `w`, `h`, then the
`w*h*ACTIONS` float patterns in slot order. -/
def save_qtable (m : QModelBits) : List Nat :=
  int32ToBits m.w :: int32ToBits m.h :: m.q

/-- Function `load_qtable`: `none` models a 0 return (fopen failure, short header,
or short payload).  The payload length is `(size_t)(w*h*ACTIONS)` — the
value of `w*h*ACTIONS` cast to an unsigned 64-bit `size_t`.  `fopen`
failure is the `none` file. -/
def load_qtable (file : Option (List Nat)) : Option QModelBits :=
  match file with
  | none => none
  | some (wB :: hB :: rest) =>
    let w := bitsToInt32 wB
    let h := bitsToInt32 hB
    let n : Nat := ((w * h * (ACTIONS : Int)) % 18446744073709551616).toNat
    if rest.length < n then none
    else some ⟨w, h, rest.take n⟩
  | some _ => none

/-- A concrete 2x2 environment with no walls, used to instantiate theorems
with hypotheses at concrete inputs (`env_init` values for `w = h = 2`:
start (0,0), goal (1,1), step limit `w*h*4 = 16`). -/
def envW : Env :=
  { w := 2, h := 2, start_x := 0, start_y := 0, goal_x := 1, goal_y := 1
    walls := fun _ _ => false, step_limit := 16
    step_reward := -1, goal_reward := 10 }

/-- A concrete 1x1 Q-table (4 slots, all zero), for witnesses. -/
def qW : QModel := ⟨1, 1, [0, 0, 0, 0]⟩

/-- A concrete 1x1 Q-table whose action 1 has the unique maximal value. -/
def qT : QModel := ⟨1, 1, [0, 5, 0, 0]⟩

/-- A concrete random source whose every draw is `RAND_MAX` (the state
never moves): the extreme libc generator behaviour that exhibits the
closed upper end of `rand()/RAND_MAX`. -/
def gC : Rand := ⟨fun st => st, fun _ => RAND_MAX⟩

/-- A concrete 1x1 bit-level table with non-zero stored patterns. -/
def qBitsW : QModelBits := ⟨1, 1, [3212836864, 1078523331, 7, 0]⟩

/-!  Theorems. -/

/-- C1: for every environment, valid position `p` and action `a < 4`,
`env_step` first computes the moved-to cell (up: `y-1`, right: `x+1`,
down: `y+1`, left: `x-1`); if that cell is out of bounds or an obstacle the
returned position equals `p`; `done` is true iff the returned position
equals the goal cell; and the reward equals `goal_reward` when done and
`step_reward` otherwise, including on a bump. -/
theorem env_step_spec (env : Env) (p : Pos) (a : Nat)
    (hp : env_valid env p.x p.y = true) (ha : a < 4) :
    ((a = 0 → moved_cell p a = ⟨p.x, p.y - 1⟩)
      ∧ (a = 1 → moved_cell p a = ⟨p.x + 1, p.y⟩)
      ∧ (a = 2 → moved_cell p a = ⟨p.x, p.y + 1⟩)
      ∧ (a = 3 → moved_cell p a = ⟨p.x - 1, p.y⟩))
    ∧ (env_step env p a).1 =
        (if env_valid env (moved_cell p a).x (moved_cell p a).y = true
          then moved_cell p a else p)
    ∧ ((env_step env p a).2.2 = true ↔
        ((env_step env p a).1.x = env.goal_x ∧ (env_step env p a).1.y = env.goal_y))
    ∧ (env_step env p a).2.1 =
        (if (env_step env p a).2.2 = true then env.goal_reward else env.step_reward) := by
  refine ⟨⟨?_, ?_, ?_, ?_⟩, ?_, ?_, ?_⟩
  · intro h; subst h; simp [moved_cell]
  · intro h; subst h; simp [moved_cell]
  · intro h; subst h; simp [moved_cell]
  · intro h; subst h; simp [moved_cell]
  · simp only [env_step]
    cases hv : env_valid env (moved_cell p a).x (moved_cell p a).y <;> simp [hv]
  · simp only [env_step]
    cases hv : env_valid env (moved_cell p a).x (moved_cell p a).y <;>
      simp [hv, Bool.and_eq_true, beq_iff_eq]
  · simp only [env_step]

/-- C1 witness: the theorem applied at a concrete configuration (2x2 empty
grid, position (0,0), action 1). -/
theorem env_step_spec_witness :
    env_valid envW 0 0 = true ∧ (1 : Nat) < 4 ∧
      (env_step envW ⟨0, 0⟩ 1).1 =
        (if env_valid envW (moved_cell ⟨0, 0⟩ 1).x (moved_cell ⟨0, 0⟩ 1).y = true
          then moved_cell ⟨0, 0⟩ 1 else ⟨0, 0⟩) :=
  ⟨by decide, by decide, (env_step_spec envW ⟨0, 0⟩ 1 (by decide) (by decide)).2.1⟩

/-- C5: whenever the current position is in bounds and not an obstacle
(and the configured start and goal are too), the position returned by
`env_step` is again in bounds and not an obstacle, and it is either the
moved-to cell or the original cell. -/
theorem env_step_valid_invariant (env : Env) (p : Pos) (a : Nat)
    (hs : env_valid env env.start_x env.start_y = true)
    (hg : env_valid env env.goal_x env.goal_y = true)
    (hp : env_valid env p.x p.y = true) (ha : a < 4) :
    env_valid env (env_step env p a).1.x (env_step env p a).1.y = true
    ∧ ((env_step env p a).1 = moved_cell p a ∨ (env_step env p a).1 = p) := by
  simp only [env_step]
  cases hv : env_valid env (moved_cell p a).x (moved_cell p a).y <;> simp [hv, hp]

/-- C5 witness: the invariant applied at a concrete configuration, in a
case where the move bumps the boundary (action up from (0,0)). -/
theorem env_step_valid_invariant_witness :
    env_valid envW (env_step envW ⟨0, 0⟩ 0).1.x (env_step envW ⟨0, 0⟩ 0).1.y = true :=
  (env_step_valid_invariant envW ⟨0, 0⟩ 0 (by decide) (by decide) (by decide)
    (by decide)).1

/-- C2: one training step with in-range slot index replaces exactly the
slot `(s_id, a)` by its old value plus
`alpha * (td_target - old value)` where
`td_target = r + (done ? 0 : gamma * maxQ(ns_id))`, leaves every other
slot unchanged, and preserves the table dimensions. -/
theorem q_update_spec (m : QModel) (s_id : Int) (a : Nat) (r : ℚ) (done : Bool)
    (gamma alpha : ℚ) (ns_id : Int)
    (hlen : (idxQ s_id a).toNat < m.q.length) :
    (q_update m s_id a r done gamma alpha ns_id).w = m.w
    ∧ (q_update m s_id a r done gamma alpha ns_id).h = m.h
    ∧ (q_update m s_id a r done gamma alpha ns_id).q.length = m.q.length
    ∧ valueOf (q_update m s_id a r done gamma alpha ns_id) s_id a =
        valueOf m s_id a
          + alpha * ((r + (if done then 0 else gamma * maxQ m ns_id))
              - valueOf m s_id a)
    ∧ (∀ j, j ≠ (idxQ s_id a).toNat →
        (q_update m s_id a r done gamma alpha ns_id).q.getD j 0 = m.q.getD j 0) := by
  refine ⟨rfl, rfl, List.length_set _ _ _, ?_, ?_⟩
  · simp only [q_update, valueOf, List.getD_eq_getElem?_getD,
      List.getElem?_set_eq_of_lt _ hlen, Option.getD_some]
  · intro j hj
    simp only [q_update, List.getD_eq_getElem?_getD,
      List.getElem?_set_ne (fun e => hj e.symm)]

/-- C2 witness: the update applied to a concrete 1x1 table. -/
theorem q_update_spec_witness :
    valueOf (q_update qW 0 1 (-1) false 1 1 0) 0 1 =
      valueOf qW 0 1
        + 1 * (((-1) + (if false then 0 else 1 * maxQ qW 0)) - valueOf qW 0 1) :=
  (q_update_spec qW 0 1 (-1) false 1 1 0 (by decide)).2.2.2.1

/-- C6: `argmax_a` returns the smallest action index attaining the maximal
value among the 4 actions (every action value is at most the returned one,
and every earlier action value is strictly below it); when all four values
are equal it returns action 0. -/
theorem argmax_a_spec (m : QModel) (s : Int) :
    (∀ b, b < 4 → valueOf m s b ≤ valueOf m s (argmax_a m s))
    ∧ (∀ b, b < argmax_a m s → valueOf m s b < valueOf m s (argmax_a m s))
    ∧ ((valueOf m s 1 = valueOf m s 0 ∧ valueOf m s 2 = valueOf m s 0
        ∧ valueOf m s 3 = valueOf m s 0) → argmax_a m s = 0) := by
  unfold argmax_a
  simp only [List.foldl_cons, List.foldl_nil]
  by_cases h1 : valueOf m s 1 > valueOf m s 0
  · simp only [if_pos h1]
    by_cases h2 : valueOf m s 2 > valueOf m s 1
    · simp only [if_pos h2]
      by_cases h3 : valueOf m s 3 > valueOf m s 2
      · simp only [if_pos h3]
        refine ⟨fun b hb => ?_, fun b hb => ?_,
          fun he => absurd he.1 (ne_of_gt h1)⟩
        · interval_cases b <;> linarith
        · interval_cases b <;> linarith
      · simp only [if_neg h3]
        refine ⟨fun b hb => ?_, fun b hb => ?_,
          fun he => absurd he.1 (ne_of_gt h1)⟩
        · interval_cases b <;> linarith
        · interval_cases b <;> linarith
    · simp only [if_neg h2]
      by_cases h3 : valueOf m s 3 > valueOf m s 1
      · simp only [if_pos h3]
        refine ⟨fun b hb => ?_, fun b hb => ?_,
          fun he => absurd he.1 (ne_of_gt h1)⟩
        · interval_cases b <;> linarith
        · interval_cases b <;> linarith
      · simp only [if_neg h3]
        refine ⟨fun b hb => ?_, fun b hb => ?_,
          fun he => absurd he.1 (ne_of_gt h1)⟩
        · interval_cases b <;> linarith
        · interval_cases b <;> linarith
  · simp only [if_neg h1]
    by_cases h2 : valueOf m s 2 > valueOf m s 0
    · simp only [if_pos h2]
      by_cases h3 : valueOf m s 3 > valueOf m s 2
      · simp only [if_pos h3]
        refine ⟨fun b hb => ?_, fun b hb => ?_,
          fun he => absurd he.2.1 (ne_of_gt h2)⟩
        · interval_cases b <;> linarith
        · interval_cases b <;> linarith
      · simp only [if_neg h3]
        refine ⟨fun b hb => ?_, fun b hb => ?_,
          fun he => absurd he.2.1 (ne_of_gt h2)⟩
        · interval_cases b <;> linarith
        · interval_cases b <;> linarith
    · simp only [if_neg h2]
      by_cases h3 : valueOf m s 3 > valueOf m s 0
      · simp only [if_pos h3]
        refine ⟨fun b hb => ?_, fun b hb => ?_,
          fun he => absurd he.2.2 (ne_of_gt h3)⟩
        · interval_cases b <;> linarith
        · interval_cases b <;> linarith
      · simp only [if_neg h3]
        refine ⟨fun b hb => ?_, fun b hb => ?_, fun he => trivial⟩
        · interval_cases b <;> linarith
        · interval_cases b <;> linarith

/-- C6 witness: action 1 has the unique maximal value in this concrete
table, and the first conjunct instantiated at it. -/
theorem argmax_a_spec_witness :
    valueOf qT 0 3 ≤ valueOf qT 0 (argmax_a qT 0) :=
  (argmax_a_spec qT 0).1 3 (by decide)

/-- C8 counterexample: with `eps = 1` the claim says a uniformly random
action is always returned, but when the first draw is `RAND_MAX` the
comparison `rand()/RAND_MAX < 1` is false and the greedy action is
returned: here the function yields action 1 (the greedy action of `qT`),
while the random branch would have yielded `RAND_MAX % ACTIONS = 3`. -/
theorem eps_greedy_action_eps_one_cex :
    eps_greedy_action qT 0 1 gC 0 = (1, 0)
    ∧ (rand gC (rand gC 0).2).1 % ACTIONS = 3
    ∧ (1 : Nat) ≠ 3 := by
  refine ⟨?_, by decide, by decide⟩
  have hu : ((rand gC 0).1 : ℚ) / (RAND_MAX : ℚ) = 1 := by
    norm_num [rand, gC, RAND_MAX]
  simp only [eps_greedy_action, hu]
  norm_num [argmax_a, valueOf, qT, idxQ, ACTIONS, rand, gC]

/-- C8 (amended): `eps_greedy_action` draws one value
`u = rand()/RAND_MAX`, which lies in the closed interval [0,1] (the upper
end attained when `rand()` returns `RAND_MAX`); if `u < eps` it returns
`rand() % ACTIONS` from a second draw (an action in [0,4)), otherwise the
greedy action; for `eps = 0` the greedy action is always returned, and for
`eps = 1` the greedy action is returned exactly when the draw equals 1. -/
theorem eps_greedy_action_spec (m : QModel) (s : Int) (eps : ℚ) (g : Rand)
    (st : Nat) :
    0 ≤ ((rand g st).1 : ℚ) / (RAND_MAX : ℚ)
    ∧ ((rand g st).1 : ℚ) / (RAND_MAX : ℚ) ≤ 1
    ∧ (((rand g st).1 : ℚ) / (RAND_MAX : ℚ) < eps →
        eps_greedy_action m s eps g st =
          ((rand g (rand g st).2).1 % ACTIONS, (rand g (rand g st).2).2)
          ∧ (eps_greedy_action m s eps g st).1 < ACTIONS)
    ∧ (¬ ((rand g st).1 : ℚ) / (RAND_MAX : ℚ) < eps →
        eps_greedy_action m s eps g st = (argmax_a m s, (rand g st).2))
    ∧ (eps = 0 → eps_greedy_action m s eps g st = (argmax_a m s, (rand g st).2)) := by
  have hle : (rand g st).1 ≤ RAND_MAX := by
    have : (rand g st).1 < RAND_MAX + 1 := by
      simp only [rand]
      exact Nat.mod_lt _ (by norm_num [RAND_MAX])
    omega
  have h0 : 0 ≤ ((rand g st).1 : ℚ) / (RAND_MAX : ℚ) :=
    div_nonneg (Nat.cast_nonneg _) (by norm_num [RAND_MAX])
  have h1 : ((rand g st).1 : ℚ) / (RAND_MAX : ℚ) ≤ 1 := by
    rw [div_le_one (by norm_num [RAND_MAX])]
    exact_mod_cast hle
  refine ⟨h0, h1, fun hlt => ?_, fun hge => ?_, fun h0eps => ?_⟩
  · constructor
    · simp only [eps_greedy_action, if_pos hlt]
    · simp only [eps_greedy_action, if_pos hlt]
      exact Nat.mod_lt _ (by norm_num [ACTIONS])
  · simp only [eps_greedy_action, if_neg hge]
  · subst h0eps
    simp only [eps_greedy_action, if_neg (not_lt.mpr h0)]

/-- C8 witness: the amended theorem applied at a concrete input (`eps = 0`
forces the greedy branch). -/
theorem eps_greedy_action_spec_witness :
    eps_greedy_action qT 0 0 gC 0 = (argmax_a qT 0, (rand gC 0).2) :=
  (eps_greedy_action_spec qT 0 0 gC 0).2.2.2.2 rfl

/-- C7: the epsilon schedule of line 161 equals
`max(eps_min, eps_start * exp(-eps_decay * ep))` for the 1-based episode
index, and under the configured ordering (`0 ≤ eps_decay`, `0 ≤ eps_start`,
`eps_min ≤ eps_start`, satisfied by the defaults 0.0025, 1.0, 0.05) it
never falls below `eps_min` nor rises above `eps_start`. -/
theorem epsilon_at_spec (s m d : ℝ) (ep : Nat) (hd : 0 ≤ d) (hs : 0 ≤ s)
    (hms : m ≤ s) :
    epsilon_at s m d ep = max m (s * Real.exp (-(d * (ep : ℝ))))
    ∧ m ≤ epsilon_at s m d ep
    ∧ epsilon_at s m d ep ≤ s := by
  refine ⟨rfl, le_max_left _ _, ?_⟩
  have he : Real.exp (-(d * (ep : ℝ))) ≤ 1 := by
    rw [Real.exp_le_one_iff]
    have : (0 : ℝ) ≤ d * (ep : ℝ) := mul_nonneg hd (Nat.cast_nonneg ep)
    linarith
  have hmul : s * Real.exp (-(d * (ep : ℝ))) ≤ s := by
    calc s * Real.exp (-(d * (ep : ℝ))) ≤ s * 1 :=
          mul_le_mul_of_nonneg_left he hs
      _ = s := mul_one s
  exact max_le hms hmul

/-- C7 witness: the schedule bounds at the default hyperparameters
(`eps_start = 1`, `eps_min = 1/20`, `eps_decay = 1/400`) and episode 1. -/
theorem epsilon_at_spec_witness :
    (1 / 20 : ℝ) ≤ epsilon_at 1 (1 / 20) (1 / 400) 1
    ∧ epsilon_at 1 (1 / 20) (1 / 400) 1 ≤ 1 :=
  ⟨(epsilon_at_spec 1 (1 / 20) (1 / 400) 1 (by norm_num) (by norm_num)
      (by norm_num)).2.1,
    (epsilon_at_spec 1 (1 / 20) (1 / 400) 1 (by norm_num) (by norm_num)
      (by norm_num)).2.2⟩

/-- The iteration budget of `train_loop` is irrelevant as soon as it
covers the worst case (`1 ≤ fuel` and `step_limit ≤ steps + fuel`): any
two adequate budgets give identical results, so the budget embedding of
the C `for(;;)` loop is exact. -/
theorem train_loop_fuel_irrelevant (env : Env) (g : Rand) (alpha gamma eps : ℚ) :
    ∀ (f1 f2 steps : Nat) (m : QModel) (st : Nat) (s : Pos) (ret : ℚ),
      1 ≤ f1 → env.step_limit ≤ steps + f1 →
      1 ≤ f2 → env.step_limit ≤ steps + f2 →
      train_loop env g alpha gamma eps f1 m st s steps ret
        = train_loop env g alpha gamma eps f2 m st s steps ret := by
  intro f1
  induction f1 with
  | zero => intro f2 steps m st s ret h1; exact absurd h1 (by omega)
  | succ n ih =>
    intro f2 steps m st s ret _ hf1 hf2pos hf2
    cases f2 with
    | zero => exact absurd hf2pos (by omega)
    | succ k =>
      simp only [train_loop]
      split
      · rfl
      · rename_i hc
        rw [not_or] at hc
        exact ih k (steps + 1) _ _ _ _ (by omega) (by omega) (by omega)
          (by omega)

/-- Budget irrelevance for the greedy play loop, as for `train_loop`. -/
theorem play_loop_fuel_irrelevant (env : Env) (m : QModel) :
    ∀ (f1 f2 steps : Nat) (s : Pos) (ret : ℚ),
      1 ≤ f1 → env.step_limit ≤ steps + f1 →
      1 ≤ f2 → env.step_limit ≤ steps + f2 →
      play_loop env m f1 s steps ret = play_loop env m f2 s steps ret := by
  intro f1
  induction f1 with
  | zero => intro f2 steps s ret h1; exact absurd h1 (by omega)
  | succ n ih =>
    intro f2 steps s ret _ hf1 hf2pos hf2
    cases f2 with
    | zero => exact absurd hf2pos (by omega)
    | succ k =>
      simp only [play_loop]
      split
      · rfl
      · rename_i hc
        rw [not_or] at hc
        exact ih k (steps + 1) _ _ (by omega) (by omega) (by omega) (by omega)

/-- Whatever the budget, once the running step count is below the limit
the training episode loop exits with a step count of at most
`step_limit`. -/
theorem train_loop_steps_le (env : Env) (g : Rand) (alpha gamma eps : ℚ) :
    ∀ (fuel steps : Nat) (m : QModel) (st : Nat) (s : Pos) (ret : ℚ),
      steps < env.step_limit →
      (train_loop env g alpha gamma eps fuel m st s steps ret).2.1
        ≤ env.step_limit := by
  intro fuel
  induction fuel with
  | zero => intro steps m st s ret hlt; exact le_of_lt hlt
  | succ n ih =>
    intro steps m st s ret hlt
    simp only [train_loop]
    split
    · exact hlt
    · rename_i hc
      rw [not_or] at hc
      exact ih (steps + 1) _ _ _ _ (by omega)

/-- Step bound for the greedy play episode loop, as for `train_loop`. -/
theorem play_loop_steps_le (env : Env) (m : QModel) :
    ∀ (fuel steps : Nat) (s : Pos) (ret : ℚ),
      steps < env.step_limit →
      (play_loop env m fuel s steps ret).2 ≤ env.step_limit := by
  intro fuel
  induction fuel with
  | zero => intro steps s ret hlt; exact le_of_lt hlt
  | succ n ih =>
    intro steps s ret hlt
    simp only [play_loop]
    split
    · exact hlt
    · rename_i hc
      rw [not_or] at hc
      exact ih (steps + 1) _ _ (by omega)

/-- C9: both the training episode loop and the greedy evaluation loop,
started at step count 0, record at most `step_limit` steps, whatever
their iteration budget (for any positive step limit; `env_init` always
sets `step_limit = w*h*4 ≥ 16`). -/
theorem episode_length_bounded (env : Env) (g : Rand) (alpha gamma eps : ℚ)
    (m : QModel) (st : Nat) (s : Pos) (fuel1 fuel2 : Nat)
    (h1 : 1 ≤ env.step_limit) :
    (train_loop env g alpha gamma eps fuel1 m st s 0 0).2.1 ≤ env.step_limit
    ∧ (play_loop env m fuel2 s 0 0).2 ≤ env.step_limit :=
  ⟨train_loop_steps_le env g alpha gamma eps fuel1 0 m st s 0 (by omega),
    play_loop_steps_le env m fuel2 0 s 0 (by omega)⟩

/-- C9 witness: the bound applied at a concrete configuration, with the
budget `step_limit + 1` used by the callers. -/
theorem episode_length_bounded_witness :
    (train_loop envW gC 1 1 0 17 qW 0 ⟨0, 0⟩ 0 0).2.1 ≤ envW.step_limit :=
  (episode_length_bounded envW gC 1 1 0 qW 0 ⟨0, 0⟩ 17 17 (by decide)).1

/-- C4: for a fixed random generator and seed, fixed hyperparameters,
fixed grid configuration, fixed float-exponential routine and fixed
episode count, two training runs started from equal initial tables and
equal seeds produce identical final tables and final generator states:
the whole run is a deterministic function of seed plus configuration. -/
theorem train_deterministic (env : Env) (g : Rand) (expf : ℚ → ℚ)
    (m1 m2 : QModel) (episodes : Nat)
    (alpha gamma eps_start eps_min eps_decay : ℚ) (seed1 seed2 : Nat)
    (hm : m1 = m2) (hseed : seed1 = seed2) :
    train env g expf m1 episodes alpha gamma eps_start eps_min eps_decay seed1
      = train env g expf m2 episodes alpha gamma eps_start eps_min eps_decay
          seed2 := by
  subst hm
  subst hseed
  rfl

/-- C4 witness: two runs at a concrete configuration coincide. -/
theorem train_deterministic_witness :
    train envW gC id qW 3 1 1 1 1 1 42
      = train envW gC id qW 3 1 1 1 1 1 42 :=
  train_deterministic envW gC id qW qW 3 1 1 1 1 1 42 42 rfl rfl

/-- Twos-complement int32 survives the write/read round trip on
non-negative values below `2^31`. -/
theorem int32_roundtrip (i : Int) (h0 : 0 ≤ i) (h1 : i < 2147483648) :
    bitsToInt32 (int32ToBits i) = i := by
  unfold int32ToBits bitsToInt32
  split <;> omega

/-- C3: saving a table with well-formed dimensions (non-negative int32
values, slot count `w*h*ACTIONS`) and loading the result succeeds and
returns the table unchanged: same `w`, same `h`, bit-identical values in
every slot. -/
theorem save_load_roundtrip (m : QModelBits)
    (hw0 : 0 ≤ m.w) (hw1 : m.w < 2147483648)
    (hh0 : 0 ≤ m.h) (hh1 : m.h < 2147483648)
    (hlen : (m.q.length : Int) = m.w * m.h * (ACTIONS : Int)) :
    load_qtable (some (save_qtable m)) = some m := by
  obtain ⟨w, h, q⟩ := m
  simp only at hw0 hw1 hh0 hh1 hlen
  simp only [save_qtable, load_qtable]
  rw [int32_roundtrip w hw0 hw1, int32_roundtrip h hh0 hh1]
  have hA : (ACTIONS : Int) = 4 := by norm_num [ACTIONS]
  have hw' : w ≤ 2147483647 := by omega
  have hh' : h ≤ 2147483647 := by omega
  have hwh : w * h ≤ 2147483647 * 2147483647 :=
    mul_le_mul hw' hh' hh0 (by omega)
  have hX : w * h * (ACTIONS : Int) < 18446744073709551616 := by
    rw [hA]
    linarith
  have hX0 : 0 ≤ w * h * (ACTIONS : Int) := by
    have hq := Int.natCast_nonneg q.length
    rw [hlen] at hq
    exact hq
  have hmod : w * h * (ACTIONS : Int) % 18446744073709551616
      = w * h * (ACTIONS : Int) := Int.emod_eq_of_lt hX0 hX
  have hn : (w * h * (ACTIONS : Int) % 18446744073709551616).toNat = q.length := by
    rw [hmod, ← hlen]
    omega
  rw [hn]
  simp [List.take_length]

/-- C3 witness: round trip of a concrete 1x1 table with non-zero values. -/
theorem save_load_roundtrip_witness :
    load_qtable (some (save_qtable qBitsW)) = some qBitsW :=
  save_load_roundtrip qBitsW (by decide) (by decide) (by decide) (by decide)
    (by decide)

/-- C10: `load_qtable` fails on an unopenable file, on a file shorter than
the two-word (8-byte) header, and on a file whose payload holds fewer than
`w*h*ACTIONS` values for the dimensions `w`, `h` declared by its header;
when the payload suffices it succeeds and returns exactly the dimensions
and values read, with no reference to any environment (the dimension check
against the live environment is done by the caller, `main`). -/
theorem load_qtable_spec :
    load_qtable none = none
    ∧ (∀ l : List Nat, l.length < 2 → load_qtable (some l) = none)
    ∧ (∀ (wB hB : Nat) (rest : List Nat),
        (rest.length <
            ((bitsToInt32 wB * bitsToInt32 hB * (ACTIONS : Int))
              % 18446744073709551616).toNat →
          load_qtable (some (wB :: hB :: rest)) = none)
        ∧ (((bitsToInt32 wB * bitsToInt32 hB * (ACTIONS : Int))
              % 18446744073709551616).toNat ≤ rest.length →
          load_qtable (some (wB :: hB :: rest)) =
            some ⟨bitsToInt32 wB, bitsToInt32 hB,
              rest.take (((bitsToInt32 wB * bitsToInt32 hB * (ACTIONS : Int))
                % 18446744073709551616).toNat)⟩)) := by
  refine ⟨rfl, ?_, ?_⟩
  · intro l hl
    match l, hl with
    | [], _ => rfl
    | [_], _ => rfl
    | _ :: _ :: rest, h => exact absurd h (by simp)
  · intro wB hB rest
    constructor
    · intro h
      simp only [load_qtable]
      rw [if_pos h]
    · intro h
      simp only [load_qtable]
      rw [if_neg (not_lt.mpr h)]

/-- C10 witness: a one-word file (shorter than the header) fails to load,
and a header declaring a 1x2 table with only one payload word fails too. -/
theorem load_qtable_spec_witness :
    load_qtable (some [7]) = none ∧ load_qtable (some [1, 2, 9]) = none :=
  ⟨load_qtable_spec.2.1 [7] (by decide),
    (load_qtable_spec.2.2 1 2 [9]).1 (by decide)⟩

end QGrid
